import Mathlib

/-
Verification of the Canyon Sunset Resort simulator core (src/simulation.js)
against its natural-language specification.

The JavaScript source is shallowly embedded below.  JavaScript numbers are
IEEE doubles; every quantity the engine manipulates (LCG states below 2^32,
prices, counts, and the probability comparisons u < 0.9 / 0.8 / 0.4 where u
is k/2^32) is either an integer below 2^53, for which double arithmetic is
exact, or a comparison whose outcome is unchanged by replacing the rounded
double constants 0.9/0.8/0.4 with the rationals 9/10, 8/10, 4/10 (no value
of the form k/2^32 lies between the rational and its double rounding).  We
therefore model numbers with ℤ and ℚ.  A JavaScript out-of-bounds array read
yields undefined; it is modelled with Option.  Math.sqrt is the one genuinely
floating-point operation (in _std); we carry the exact variance instead and
note that stdRevenue = Math.sqrt(varRevenue) is a function of it.
-/

namespace Canyon

/-! ### CONFIG constants (simulation.js lines 7-22) -/

/-- CONFIG.PRICE_MAPPING values. -/
def PRICE_LOW : ℚ := 30000

def PRICE_MED : ℚ := 40000

def PRICE_HIGH : ℚ := 50000

/-- CONFIG.SALE_PROBABILITIES keyed by price, with the engine's
fallback `SALE_PROBABILITIES[price] || 0` for any other price
(simulation.js line 185).  The JS constants 0.9, 0.8, 0.4 are doubles;
comparing a draw k/2^32 against them gives the same boolean as comparing
against 9/10, 8/10, 4/10, so the rational model is exact. -/
def saleProbability (price : ℚ) : ℚ :=
  if price = 30000 then mkRat 9 10
  else if price = 40000 then mkRat 8 10
  else if price = 50000 then mkRat 4 10
  else 0

/-! ### RNG (simulation.js lines 27-44)

`this.current = (this.a * this.current + this.c) % this.m` with
a = 1664525, c = 1013904223, m = 2^32.  JavaScript `%` is the truncated
remainder (it keeps the dividend's sign), which is Int.tmod.  The double
computation of a * current + c is exact exactly while that integer stays
below 2^53: every iterate after the first has current in [0, 2^32), where
a * current + c < 2^53 always holds, so only the very first step — from
the raw seed — can round.  For seeds with a * seed + c < 2^53 (about
5.4e9, covering the whole 32-bit seed range and the default 42) the model
below therefore reproduces the program bit for bit; for a larger seed such
as 2^60 the JavaScript sum rounds and the program diverges from the exact
recurrence (see lcg_first_step_rounds_at_large_seed). -/

def lcgA : ℤ := 1664525

def lcgC : ℤ := 1013904223

def lcgM : ℤ := 2 ^ 32

structure RNGState where
  seed : ℤ
  current : ℤ
deriving DecidableEq, Repr

/-- `new RNG(seed)` (constructor, lines 28-34). -/
def RNG.init (s : ℤ) : RNGState := ⟨s, s⟩

/-- One step of the linear congruence (the state update inside next()). -/
def lcgNext (cur : ℤ) : ℤ := (lcgA * cur + lcgC).tmod lcgM

/-- `next()` (lines 36-39): advance the state and return current / m.
The quotient is written mkRat so that it evaluates; the lemma
`RNGState.next_fst` below states it equals the division current / 2^32. -/
def RNGState.next (g : RNGState) : ℚ × RNGState :=
  let c := lcgNext g.current
  (mkRat c (2 ^ 32), ⟨g.seed, c⟩)

/-- `reset()` (lines 41-43). -/
def RNGState.reset (g : RNGState) : RNGState := ⟨g.seed, g.seed⟩

/-- State after n calls to next(). -/
def RNGState.after (g : RNGState) : ℕ → RNGState
  | 0 => g
  | n + 1 => ((RNGState.after g n).next).2

/-- Value returned by the (n+1)-st call to next() on a generator
freshly constructed from seed s. -/
def nthDraw (s : ℤ) (n : ℕ) : ℚ := (((RNG.init s).after n).next).1

/-! ### PolicyMatrix (simulation.js lines 49-62) -/

structure PolicyMatrix where
  matrix : List (List ℚ)
deriving DecidableEq, Repr

/-- `this.I = matrix.length`. -/
def PolicyMatrix.I (p : PolicyMatrix) : ℕ := p.matrix.length

/-- `this.T = matrix[0].length` (undefined row for an empty matrix is
modelled as the empty row, giving T = 0). -/
def PolicyMatrix.T (p : PolicyMatrix) : ℕ := (p.matrix.headD []).length

/-- `getPrice(capacityIndex, period)` (lines 56-61): out-of-range index
pairs return the number 0; in-range pairs return `matrix[ci][period]`,
which in JavaScript is undefined (modelled: none) when row ci is shorter
than `period + 1`. -/
def PolicyMatrix.getPrice (p : PolicyMatrix) (capacityIndex period : ℤ) : Option ℚ :=
  if capacityIndex < 0 ∨ (p.I : ℤ) ≤ capacityIndex ∨ period < 0 ∨ (p.T : ℤ) ≤ period then
    some 0
  else
    (p.matrix.get? capacityIndex.toNat).bind (fun row => row.get? period.toNat)

/-! ### SimulationState and a single trial (simulation.js lines 67-76, 168-205) -/

structure TrialState where
  capacity : ℕ
  revenue : ℚ
  salesCount : ℕ
  priceHistory : List ℚ
  salesHistory : List Bool
  revenueHistory : List ℚ
deriving DecidableEq, Repr

/-- `new SimulationState(initialCapacity)` (lines 67-76). -/
def TrialState.init (initialCapacity : ℕ) : TrialState :=
  ⟨initialCapacity, 0, 0, [], [], []⟩

/-- The body of the period loop in `_runSingleTrial` (lines 171-202) for
period t.  Capacity only ever decreases from its initial value and stops at
0, so the JS guard `capacity <= 0` is `capacity = 0` over ℕ.  A ragged row
makes `policy.getPrice` return undefined (none); the engine then finds no
sale probability (`|| 0`) and never sells at it, and we record the price
as 0 in that unreachable-after-validation case. -/
def trialStep (p : PolicyMatrix) (t : ℕ) : TrialState × RNGState → TrialState × RNGState :=
  fun sg =>
    let s := sg.1
    let g := sg.2
    if s.capacity = 0 then
      ({ s with priceHistory := s.priceHistory ++ [0],
                salesHistory := s.salesHistory ++ [false],
                revenueHistory := s.revenueHistory ++ [0] }, g)
    else
      let price := (p.getPrice ((s.capacity : ℤ) - 1) (t : ℤ)).getD 0
      let ug := g.next
      let sold : Bool := decide (ug.1 < saleProbability price)
      ({ capacity := if sold then s.capacity - 1 else s.capacity,
         revenue := s.revenue + (if sold then price else 0),
         salesCount := s.salesCount + (if sold then 1 else 0),
         priceHistory := s.priceHistory ++ [price],
         salesHistory := s.salesHistory ++ [sold],
         revenueHistory := s.revenueHistory ++ [if sold then price else 0] }, ug.2)

/-- The loop `for (let t = 0; t < T; t++)`, with `fuel` periods still to
run starting at period index t. -/
def runPeriods (p : PolicyMatrix) : ℕ → ℕ → TrialState × RNGState → TrialState × RNGState
  | 0, _, sg => sg
  | fuel + 1, t, sg => runPeriods p fuel (t + 1) (trialStep p t sg)

/-- `_runSingleTrial(policy, trialId)` (lines 168-205).  The source's
trialId parameter is unused by the trial itself. -/
def runSingleTrial (p : PolicyMatrix) (I T : ℕ) (g : RNGState) : TrialState × RNGState :=
  runPeriods p T 0 (TrialState.init I, g)

/-- The trial loop of `runSimulation` (lines 139-143): n trials drawn
sequentially from one shared generator. -/
def runTrials (p : PolicyMatrix) (I T : ℕ) : ℕ → RNGState → List TrialState × RNGState
  | 0, g => ([], g)
  | n + 1, g =>
      let first := runSingleTrial p I T g
      let rest := runTrials p I T n first.2
      (first.1 :: rest.1, rest.2)

/-! ### Engine configuration (simulation.js lines 95-121) -/

structure EngineConfig where
  I : ℕ
  T : ℕ
  trials : ℤ
  seed : ℤ
  lastMinuteK : ℤ
deriving DecidableEq, Repr

/-- The raw `config` object passed to the constructor; a missing field is
none. -/
structure RawConfig where
  trials : Option ℤ := none
  seed : Option ℤ := none
  lastMinuteK : Option ℤ := none

/-- JavaScript `x || d` on an optional integer field: undefined and the
falsy number 0 both fall back to the default. -/
def jsOrInt (v : Option ℤ) (d : ℤ) : ℤ :=
  match v with
  | none => d
  | some x => if x = 0 then d else x

/-- The config record built by the constructor (lines 97-103): I and T are
always the CONFIG constants 7 and 15; trials, seed and lastMinuteK come
from the raw config with `||` defaults 10000, 42 and 3. -/
def mkEngineConfig (c : RawConfig) : EngineConfig :=
  { I := 7, T := 15,
    trials := jsOrInt c.trials 10000,
    seed := jsOrInt c.seed 42,
    lastMinuteK := jsOrInt c.lastMinuteK 3 }

/-- `_validateConfig` (lines 109-121), as a fallible check. -/
def validateConfig (cfg : EngineConfig) : Except String Unit :=
  if cfg.I = 0 ∨ cfg.T = 0 then
    .error "Capacity and periods must be positive"
  else if cfg.trials ≤ 0 then
    .error "Number of trials must be positive"
  else if (cfg.T : ℤ) < cfg.lastMinuteK then
    .error "lastMinuteK cannot exceed total periods"
  else
    .ok ()

structure Engine where
  config : EngineConfig
  rng : RNGState
deriving DecidableEq, Repr

/-- `new SimulationEngine(config)` (lines 96-107): build the config with
defaults, seed the RNG from it, and fail fast if validation throws. -/
def SimulationEngine.create (c : RawConfig) : Except String Engine :=
  let cfg := mkEngineConfig c
  (validateConfig cfg).map (fun _ => { config := cfg, rng := RNG.init cfg.seed })

/-! ### Aggregates (simulation.js lines 210-278, 347-360) -/

/-- `_mean` (lines 348-350).  For the empty list JS yields NaN (0/0); in ℚ
the value is 0; the engine never takes a mean of an empty revenues list
because validated configs have trials > 0, and it guards the two other
mean-like divisions explicitly. -/
def mean (l : List ℚ) : ℚ := l.sum / (l.length : ℚ)

/-- The variance computed inside `_std` (lines 352-356);
stdRevenue = Math.sqrt of this. -/
def variance (l : List ℚ) : ℚ := mean (l.map (fun v => (v - mean l) ^ 2))

/-- The allPrices collection (lines 222-229): prices of the periods in
which a sale occurred, in order. -/
def soldPrices (r : TrialState) : List ℚ :=
  (List.range r.salesHistory.length).filterMap
    (fun i => if r.salesHistory.getD i false then some (r.priceHistory.getD i 0) else none)

/-- One priceMix / price-histogram counter (the identical loops at lines
252-261 and 311-320): the number of period-records, over all trials, with a
sale at exactly this price. -/
def countSoldAt (price : ℚ) (results : List TrialState) : ℕ :=
  (results.map (fun r =>
    (List.range r.salesHistory.length).countP
      (fun i => r.salesHistory.getD i false
        && decide (i < r.priceHistory.length)
        && decide (r.priceHistory.getD i 0 = price)))).sum

/-- The last-minute loop (lines 234-246): for each trial, periods
t = T-k .. T-1 are examined; the first component counts the examined slots
with a sale, the second counts all examined slots.  For k ≤ T (which
validation guarantees) the JS loop range [T-k, T) equals the filtered range
below; for k ≤ 0 both are empty. -/
def lastMinuteCounts (T : ℕ) (k : ℤ) (results : List TrialState) : ℕ × ℕ :=
  results.foldl (fun acc r =>
    let idxs := (List.range T).filter (fun (t : ℕ) => decide ((T : ℤ) - k ≤ (t : ℤ)))
    (acc.1 + idxs.countP (fun t => decide (t < r.salesHistory.length) && r.salesHistory.getD t false),
     acc.2 + idxs.countP (fun t => decide (t < r.salesHistory.length)))) (0, 0)

structure Aggregates where
  avgRevenue : ℚ
  varRevenue : ℚ
  fillRate : ℚ
  avgPrice : ℚ
  lastMinuteShare : ℚ
  priceMixLow : ℕ
  priceMixMed : ℕ
  priceMixHigh : ℕ
deriving DecidableEq, Repr

/-- `_calculateAggregates` (lines 210-278).  The priceMix object keyed
30000/40000/50000 and its string-keyed copy are the three count fields. -/
def calculateAggregates (cfg : EngineConfig) (results : List TrialState) : Aggregates :=
  let revenues := results.map (fun r => r.revenue)
  let salesCounts := results.map (fun r => (r.salesCount : ℚ))
  let allPrices := results.flatMap soldPrices
  let lm := lastMinuteCounts cfg.T cfg.lastMinuteK results
  { avgRevenue := mean revenues,
    varRevenue := variance revenues,
    fillRate := mean salesCounts / (cfg.I : ℚ),
    avgPrice := if 0 < allPrices.length then mean allPrices else 0,
    lastMinuteShare := if 0 < lm.2 then (lm.1 : ℚ) / (lm.2 : ℚ) else 0,
    priceMixLow := countSoldAt 30000 results,
    priceMixMed := countSoldAt 40000 results,
    priceMixHigh := countSoldAt 50000 results }

/-! ### Sample trial and histograms (simulation.js lines 283-345) -/

structure SampleStep where
  period : ℕ
  remainingCapacity : ℕ
  price : ℚ
  sold : Bool
  revenue : ℚ
deriving DecidableEq, Repr

structure SampleTrial where
  trialId : ℕ
  steps : List SampleStep
  totalRevenue : ℚ
deriving DecidableEq, Repr

/-- Number of true entries; the JS `_sum` over a boolean slice. -/
def countTrue (l : List Bool) : ℕ := l.countP id

/-- `_createSampleTrial` (lines 283-303).  `Math.max(0, I - sum)` is ℕ
truncated subtraction; `salesHistory[t] || false` and
`revenueHistory[t] || 0` are the getD defaults. -/
def createSampleTrial (cfg : EngineConfig) (r : TrialState) : SampleTrial :=
  { trialId := 0,
    steps := ((List.range cfg.T).filter (fun t => decide (t < r.priceHistory.length))).map
      (fun t =>
        { period := t + 1,
          remainingCapacity := cfg.I - countTrue (r.salesHistory.take (t + 1)),
          price := r.priceHistory.getD t 0,
          sold := r.salesHistory.getD t false,
          revenue := r.revenueHistory.getD t 0 }),
    totalRevenue := r.revenue }

structure PriceHistogram where
  low : ℕ
  med : ℕ
  high : ℕ
deriving DecidableEq, Repr

/-- `_createPriceHistogram` (lines 308-328): the source repeats the
priceMix loop verbatim, so the same counters appear here. -/
def createPriceHistogram (results : List TrialState) : PriceHistogram :=
  ⟨countSoldAt 30000 results, countSoldAt 40000 results, countSoldAt 50000 results⟩

/-- `_createSalesByPeriodHistogram` (lines 333-345). -/
def salesByPeriodHistogram (T : ℕ) (results : List TrialState) : List ℕ :=
  (List.range T).map (fun t =>
    results.countP (fun r => decide (t < min r.salesHistory.length T) && r.salesHistory.getD t false))

structure SimulationResults where
  config : EngineConfig
  policy : PolicyMatrix
  aggregates : Aggregates
  sampleTrial : SampleTrial
  priceHistogram : PriceHistogram
  salesByPeriod : List ℕ
deriving DecidableEq, Repr

/-- `runSimulation(policy)` (lines 126-163): reject mismatched dimensions,
reset the engine's RNG to its seed, run all trials off the single shared
generator, and package aggregates, the sample trial (trial 0; headD is
unreachable because validated configs have trials > 0), and histograms.
The returned Engine is the engine after the run (its RNG advanced). -/
def runSimulation (e : Engine) (p : PolicyMatrix) : Except String (SimulationResults × Engine) :=
  if p.I ≠ e.config.I ∨ p.T ≠ e.config.T then
    .error "Policy dimensions do not match config"
  else
    let g0 := e.rng.reset
    let tr := runTrials p e.config.I e.config.T e.config.trials.toNat g0
    .ok (⟨e.config, p,
          calculateAggregates e.config tr.1,
          createSampleTrial e.config (tr.1.headD (TrialState.init e.config.I)),
          createPriceHistogram tr.1,
          salesByPeriodHistogram e.config.T tr.1⟩,
         { e with rng := tr.2 })

/-! ### CSVProcessor (simulation.js lines 366-427) -/

/-- `parseCSV` (lines 367-377): trim the content, split rows on newlines,
cells on commas, trim and uppercase each cell.  No row or column is ever
removed. -/
def parseCSV (csvContent : String) : List (List String) :=
  (csvContent.trim.splitOn "\n").map
    (fun line => (line.splitOn ",").map (fun cell => cell.trim.toUpper))

/-- `_isValidPriceLevel` (lines 424-427). -/
def isValidPriceLevel (v : String) : Bool :=
  (["LOW", "MED", "HIGH", "30", "40", "50", "$30", "$40", "$50"]).contains v

structure VError where
  row : ℤ
  col : ℤ
  value : String
  message : String
deriving DecidableEq, Repr

/-- The inner cell loop of `validateMatrix` (lines 403-413) on row i
(0-based), starting at column j. -/
def cellErrors (i : ℕ) : ℕ → List String → List VError
  | _, [] => []
  | j, c :: rest =>
      (if isValidPriceLevel c then [] else
        [{ row := (i : ℤ) + 1, col := (j : ℤ) + 1, value := c,
           message := "Invalid price level: " ++ c ++
             ". Use LOW, MED, HIGH, 30, 40, 50, $30, $40, or $50" }])
      ++ cellErrors i (j + 1) rest

/-- The outer row loop of `validateMatrix` (lines 391-414), starting at
row i (0-based): a column-count error for a row of the wrong width, then
that row's cell errors, in source push order. -/
def rowErrors : ℕ → List (List String) → List VError
  | _, [] => []
  | i, row :: rest =>
      (if row.length ≠ 15 then
        [{ row := (i : ℤ) + 1, col := -1, value := "",
           message := "Row " ++ toString (i + 1) ++ ": Expected 15 columns, got " ++
             toString row.length }]
       else [])
      ++ cellErrors i 0 row ++ rowErrors (i + 1) rest

structure VResult where
  valid : Bool
  errors : List VError
  dimI : ℕ
  dimT : ℕ
  matrixPreview : List (List String)
deriving DecidableEq, Repr

/-- `validateMatrix` (lines 379-422): the row-count error (coordinates
(-1,-1)) first, then the per-row errors; valid iff no errors; dimensions
echo the input shape (`matrix[0]?.length || 0`). -/
def validateMatrix (m : List (List String)) : VResult :=
  let errors :=
    (if m.length ≠ 7 then
      [{ row := -1, col := -1, value := "",
         message := "Expected 7 rows, got " ++ toString m.length }]
     else [])
    ++ rowErrors 0 m
  { valid := errors.length == 0,
    errors := errors,
    dimI := m.length,
    dimT := (m.headD []).length,
    matrixPreview := m }

/-! ### Optimal benchmark and regret (absent from src)

The repository's README lists `backend/sim/dp_benchmark.py` ("Dynamic
programming benchmark for regret calculation") and the frontend types
declare an optional `regret` aggregate, but that backend file is not among
the sources; only the spec (§4.5, §4.4) describes it. -/

/-- Modelled from the spec: the backward-induction value function of the
missing `dp_benchmark.py` — value(0, r) = 0, value(c, 0) = 0, and
value(c, r) = max over the three price levels p of
prob(p)·(price(p) + value(c−1, r−1)) + (1−prob(p))·value(c, r−1),
with the fixed price/probability model of §3.  It consults neither a
policy matrix nor any random draw. -/
def optimalValue : ℕ → ℕ → ℚ
  | 0, _ => 0
  | _ + 1, 0 => 0
  | c + 1, r + 1 =>
      max (9/10 * (30000 + optimalValue c r) + (1 - 9/10) * optimalValue (c + 1) r)
        (max (8/10 * (40000 + optimalValue c r) + (1 - 8/10) * optimalValue (c + 1) r)
          (4/10 * (50000 + optimalValue c r) + (1 - 4/10) * optimalValue (c + 1) r))

/-- Modelled from the spec: regret = optimal expected revenue for the fixed
7×15 shape minus the simulated average revenue, surfaced as-is. -/
def regretOf (avgRevenue : ℚ) : ℚ := optimalValue 7 15 - avgRevenue

/-- Modelled from the spec: the regret field attached to a simulation
result when regret is requested. -/
def resultRegret (res : SimulationResults) : ℚ := regretOf res.aggregates.avgRevenue

/-! ### Statement vocabulary: concrete inputs and invariant predicates -/

/-- The 7×15 policy offering LOW everywhere. -/
def allLowPolicy : PolicyMatrix := ⟨List.replicate 7 (List.replicate 15 30000)⟩

/-- The 7×15 policy offering HIGH everywhere. -/
def allHighPolicy : PolicyMatrix := ⟨List.replicate 7 (List.replicate 15 50000)⟩

/-- A ragged matrix: 2 declared rows, row 0 of length 2 (so T = 2), but
row 1 has only one cell. -/
def raggedPolicy : PolicyMatrix := ⟨[[30000, 40000], [50000]]⟩

/-- The RNG state with which trial i starts inside runSimulation, for a
constructor-built engine with the given run seed: the single shared
generator is reset to the seed and then advanced by trials 0..i-1. -/
def rngStateAtTrial (p : PolicyMatrix) (I T : ℕ) (s : ℤ) (i : ℕ) : RNGState :=
  (runTrials p I T i ((RNG.init s).reset)).2

/-- The trial-state list runSimulation aggregates, for a constructor-built
engine (whose rng is RNG.init cfg.seed, so reset gives RNG.init cfg.seed). -/
def simTrialList (p : PolicyMatrix) (cfg : EngineConfig) : List TrialState :=
  (runTrials p cfg.I cfg.T cfg.trials.toNat ((RNG.init cfg.seed).reset)).1

/-- The engine config produced by the constructor when no options are
passed. -/
def defaultEngineConfig : EngineConfig := mkEngineConfig {}

/-- One of the three canonical monetary prices. -/
def canonicalPrice (q : ℚ) : Prop := q = 30000 ∨ q = 40000 ∨ q = 50000

/-- A well-formed policy for shape (I, T): I rows, all of width T, every
cell canonical. -/
def PolicyOK (p : PolicyMatrix) (I T : ℕ) : Prop :=
  p.matrix.length = I ∧ (∀ row ∈ p.matrix, row.length = T) ∧
    (∀ row ∈ p.matrix, ∀ c ∈ row, canonicalPrice c)

/-- The trace invariants claimed for a finished trial with initial
capacity I over T periods.  The remaining capacity entering period t is
I - countTrue (salesHistory.take t); the conjuncts say: all three history
rows have exactly T records; sales never exceed I (so remaining capacity,
as an integer, never goes negative and stays in [0, I]); the capacity
sequence is monotonically non-increasing; a recorded sale at period t
requires capacity entering t to be positive; and every recorded price is
canonical, or 0 with capacity entering t exhausted. -/
def TraceOK (I T : ℕ) (r : TrialState) : Prop :=
  r.priceHistory.length = T ∧ r.salesHistory.length = T ∧ r.revenueHistory.length = T ∧
  (∀ t, countTrue (r.salesHistory.take t) ≤ I) ∧
  (∀ t, I - countTrue (r.salesHistory.take (t + 1)) ≤ I - countTrue (r.salesHistory.take t)) ∧
  (∀ t, ∀ ht : t < r.salesHistory.length,
      r.salesHistory.get ⟨t, ht⟩ = true → countTrue (r.salesHistory.take t) < I) ∧
  (∀ t, ∀ ht : t < r.priceHistory.length,
      canonicalPrice (r.priceHistory.get ⟨t, ht⟩) ∨
        (r.priceHistory.get ⟨t, ht⟩ = 0 ∧ countTrue (r.salesHistory.take t) = I))

/-- Mid-trial invariant tying the running TrialState fields together. -/
def StepInv (I : ℕ) (s : TrialState) : Prop :=
  s.capacity + countTrue s.salesHistory = I ∧
  s.salesCount = countTrue s.salesHistory ∧
  s.priceHistory.length = s.salesHistory.length ∧
  s.revenueHistory.length = s.salesHistory.length ∧
  (∀ t, ∀ ht : t < s.salesHistory.length,
      s.salesHistory.get ⟨t, ht⟩ = true → countTrue (s.salesHistory.take t) < I) ∧
  (∀ t, ∀ ht : t < s.priceHistory.length,
      canonicalPrice (s.priceHistory.get ⟨t, ht⟩) ∨
        (s.priceHistory.get ⟨t, ht⟩ = 0 ∧ countTrue (s.salesHistory.take t) = I))

/-- A 7×15 grid of LOW cells: a valid body. -/
def goodGrid : List (List String) := List.replicate 7 (List.replicate 15 "LOW")

/-- A header row of 15 non-vocabulary labels. -/
def headerRow : List String := List.replicate 15 "PERIOD"

/-- A raw grid consisting of a header row on top of a valid 7×15 body. -/
def headerGrid : List (List String) := headerRow :: goodGrid

/-- A grid with a wrong row count and one bad cell. -/
def badGrid : List (List String) := [["LOW", "XYZ"]]

instance (q : ℚ) : Decidable (canonicalPrice q) := by
  unfold canonicalPrice; infer_instance

instance (p : PolicyMatrix) (I T : ℕ) : Decidable (PolicyOK p I T) := by
  unfold PolicyOK; infer_instance

/-! ### General lemmas -/

/-- The draw returned by next() is the new current value divided by 2^32;
mkRat and the field division agree. -/
theorem RNGState.next_fst (g : RNGState) :
    (g.next).1 = ((lcgNext g.current : ℤ) : ℚ) / ((lcgM : ℤ) : ℚ) := by
  simp only [RNGState.next, Rat.mkRat_eq_div, lcgM]
  norm_num

/-- The sale probabilities are the spec's 0.9, 0.8 and 0.4. -/
theorem saleProbability_eq :
    saleProbability 30000 = 9/10 ∧ saleProbability 40000 = 8/10 ∧
      saleProbability 50000 = 4/10 := by
  norm_num [saleProbability]

theorem lcgNext_bounds (c : ℤ) (hc : 0 ≤ c) : 0 ≤ lcgNext c ∧ lcgNext c < lcgM := by
  have h1 : (0 : ℤ) ≤ lcgA * c + lcgC := by
    have h2 := mul_nonneg (by norm_num [lcgA] : (0 : ℤ) ≤ lcgA) hc
    have h3 : (0 : ℤ) ≤ lcgC := by norm_num [lcgC]
    linarith
  have h2 : (0 : ℤ) < lcgM := by norm_num [lcgM]
  unfold lcgNext
  rw [Int.tmod_eq_emod h1 h2.le]
  exact ⟨Int.emod_nonneg _ (by norm_num [lcgM]), Int.emod_lt_of_pos _ h2⟩

theorem RNGState.after_seed (g : RNGState) (n : ℕ) : (g.after n).seed = g.seed := by
  induction n with
  | zero => rfl
  | succ n ih => simp [RNGState.after, RNGState.next, ih]

theorem init_current_nonneg (s : ℤ) (hs : 0 ≤ s) (n : ℕ) :
    0 ≤ ((RNG.init s).after n).current := by
  induction n with
  | zero => exact hs
  | succ n ih =>
      simp only [RNGState.after, RNGState.next]
      exact (lcgNext_bounds _ ih).1

theorem mkRat_unit_bounds (a : ℤ) (ha : 0 ≤ a) (hlt : a < 2 ^ 32) :
    0 ≤ mkRat a (2 ^ 32) ∧ mkRat a (2 ^ 32) < 1 := by
  rw [Rat.mkRat_eq_div]
  constructor
  · apply div_nonneg (by exact_mod_cast ha)
    positivity
  · rw [div_lt_one (by positivity)]
    exact_mod_cast hlt

/-- At seed 2^60 the first update is no longer computed exactly by the
program: the true sum lcgA * 2^60 + lcgC sits between doubles spaced
2^28 apart (lcgA * 2^60 is a multiple of 2^60, and lcgC = 1013904223 is
strictly between 3 * 2^28 and its nearest multiple 2^30 = 4 * 2^28), so
JavaScript rounds it to lcgA * 2^60 + 2^30 and the program's first
current is 1073741824, while the exact recurrence gives 1013904223.
The third conjunct records that such a seed violates the exactness
bound lcgA * s + lcgC < 2^53 assumed by the amended stream-generator
contract. -/
theorem lcg_first_step_rounds_at_large_seed :
    lcgNext (2 ^ 60) = 1013904223 ∧
    (lcgA * 2 ^ 60 + 2 ^ 30).tmod lcgM = 1073741824 ∧
    lcgC - 3 * 2 ^ 28 > 2 ^ 27 ∧ 2 ^ 30 - lcgC < 2 ^ 27 ∧
    ¬ (lcgA * (2 ^ 60 : ℤ) + lcgC < 2 ^ 53) := by
  refine ⟨by decide, by decide, by decide, by decide, by decide⟩

theorem runTrials_snd_succ (p : PolicyMatrix) (I T n : ℕ) (g : RNGState) :
    (runTrials p I T (n + 1) g).2 = (runSingleTrial p I T ((runTrials p I T n g).2)).2 := by
  induction n generalizing g with
  | zero => rfl
  | succ n ih =>
      show (runTrials p I T (n + 1) (runSingleTrial p I T g).2).2 = _
      rw [ih]
      rfl

theorem getPrice_in_range_getD (p : PolicyMatrix) (ci t : ℕ) (hci : ci < p.I) (ht : t < p.T) :
    (p.getPrice (ci : ℤ) (t : ℤ)).getD 0 = (p.matrix.getD ci []).getD t 0 := by
  unfold PolicyMatrix.getPrice
  rw [if_neg (by omega)]
  have hci2 : ci < p.matrix.length := hci
  rw [Int.toNat_natCast, Int.toNat_natCast]
  obtain ⟨row, hrow⟩ : ∃ row, p.matrix.get? ci = some row := by
    rw [List.get?_eq_get hci2]; exact ⟨_, rfl⟩
  have hdrow : p.matrix.getD ci [] = row := by
    rw [List.getD_eq_getD_get?, hrow]
    rfl
  rw [hrow, hdrow, List.getD_eq_getD_get?]
  rfl

theorem trialStep_lengths (p : PolicyMatrix) (t : ℕ) (sg : TrialState × RNGState) :
    (trialStep p t sg).1.priceHistory.length = sg.1.priceHistory.length + 1 ∧
    (trialStep p t sg).1.salesHistory.length = sg.1.salesHistory.length + 1 ∧
    (trialStep p t sg).1.revenueHistory.length = sg.1.revenueHistory.length + 1 := by
  by_cases hc : sg.1.capacity = 0 <;>
    simp [trialStep, hc, List.length_append]

theorem runPeriods_lengths (p : PolicyMatrix) (fuel : ℕ) :
    ∀ (t : ℕ) (sg : TrialState × RNGState),
      (runPeriods p fuel t sg).1.priceHistory.length = sg.1.priceHistory.length + fuel ∧
      (runPeriods p fuel t sg).1.salesHistory.length = sg.1.salesHistory.length + fuel ∧
      (runPeriods p fuel t sg).1.revenueHistory.length = sg.1.revenueHistory.length + fuel := by
  induction fuel with
  | zero => intro t sg; simp [runPeriods]
  | succ n ih =>
      intro t sg
      have hstep := trialStep_lengths p t sg
      have h2 := ih (t + 1) (trialStep p t sg)
      have hunfold : runPeriods p (n + 1) t sg = runPeriods p n (t + 1) (trialStep p t sg) := rfl
      rw [hunfold]
      omega

theorem cellErrors_exists (i : ℕ) (row : List String) :
    ∀ (j0 j : ℕ) (hj : j < row.length),
      isValidPriceLevel (row.get ⟨j, hj⟩) = false →
      ∃ e ∈ cellErrors i j0 row,
        e.row = (i : ℤ) + 1 ∧ e.col = (j0 : ℤ) + (j : ℤ) + 1 ∧ e.value = row.get ⟨j, hj⟩ := by
  induction row with
  | nil => intro j0 j hj; simp at hj
  | cons c rest ih =>
      intro j0 j hj hbad
      cases j with
      | zero =>
          have hfalse : isValidPriceLevel c = false := by simpa using hbad
          simp only [cellErrors, hfalse]
          exact ⟨_, List.mem_append_left _ (List.mem_singleton_self _), rfl,
            by push_cast; ring, by simp⟩
      | succ j =>
          have hj2 : j < rest.length := by simpa using hj
          have hbad2 : isValidPriceLevel (rest.get ⟨j, hj2⟩) = false := by simpa using hbad
          obtain ⟨e, hmem, h1, h2, h3⟩ := ih (j0 + 1) j hj2 hbad2
          refine ⟨e, ?_, h1, ?_, ?_⟩
          · simp only [cellErrors]
            exact List.mem_append_right _ hmem
          · rw [h2]; push_cast; ring
          · simpa using h3

theorem rowErrors_cell_exists (m : List (List String)) :
    ∀ (i0 i : ℕ) (hi : i < m.length) (j : ℕ) (hj : j < (m.get ⟨i, hi⟩).length),
      isValidPriceLevel ((m.get ⟨i, hi⟩).get ⟨j, hj⟩) = false →
      ∃ e ∈ rowErrors i0 m,
        e.row = (i0 : ℤ) + (i : ℤ) + 1 ∧ e.col = (j : ℤ) + 1 ∧
          e.value = (m.get ⟨i, hi⟩).get ⟨j, hj⟩ := by
  induction m with
  | nil => intro i0 i hi; simp at hi
  | cons row rest ih =>
      intro i0 i hi j hj hbad
      cases i with
      | zero =>
          obtain ⟨e, hmem, h1, h2, h3⟩ := cellErrors_exists i0 row 0 j (by simpa using hj)
            (by simpa using hbad)
          refine ⟨e, ?_, by rw [h1]; push_cast; ring, by rw [h2]; push_cast; ring, by simpa using h3⟩
          simp only [rowErrors]
          exact List.mem_append_left _ (List.mem_append_right _ hmem)
      | succ i =>
          have hi2 : i < rest.length := by simpa using hi
          obtain ⟨e, hmem, h1, h2, h3⟩ := ih (i0 + 1) i hi2 j (by simpa using hj)
            (by simpa using hbad)
          refine ⟨e, ?_, by rw [h1]; push_cast; ring, h2, by simpa using h3⟩
          simp only [rowErrors]
          exact List.mem_append_right _ hmem

theorem rowErrors_width_exists (m : List (List String)) :
    ∀ (i0 i : ℕ) (hi : i < m.length), (m.get ⟨i, hi⟩).length ≠ 15 →
      ∃ e ∈ rowErrors i0 m, e.row = (i0 : ℤ) + (i : ℤ) + 1 ∧ e.col = -1 := by
  induction m with
  | nil => intro i0 i hi; simp at hi
  | cons row rest ih =>
      intro i0 i hi hw
      cases i with
      | zero =>
          have hw2 : row.length ≠ 15 := by simpa using hw
          simp only [rowErrors, if_pos hw2]
          refine ⟨_, List.mem_append_left _ (List.mem_append_left _ (List.mem_singleton_self _)),
            ?_, rfl⟩
          show ((i0 : ℤ) + 1) = (i0 : ℤ) + (0 : ℕ) + 1
          push_cast
          ring
      | succ i =>
          have hi2 : i < rest.length := by simpa using hi
          obtain ⟨e, hmem, h1, h2⟩ := ih (i0 + 1) i hi2 (by simpa using hw)
          refine ⟨e, ?_, by rw [h1]; push_cast; ring, h2⟩
          simp only [rowErrors]
          exact List.mem_append_right _ hmem

theorem validateMatrix_errors_eq (m : List (List String)) :
    (validateMatrix m).errors =
      (if m.length ≠ 7 then
        [{ row := -1, col := -1, value := "",
           message := "Expected 7 rows, got " ++ toString m.length }]
       else [])
      ++ rowErrors 0 m := rfl

theorem validateMatrix_valid_iff (m : List (List String)) :
    (validateMatrix m).valid = true ↔ (validateMatrix m).errors = [] := by
  show (((validateMatrix m).errors).length == 0) = true ↔ _
  simp [List.length_eq_zero]

theorem validateMatrix_valid_rows (m : List (List String))
    (h : (validateMatrix m).valid = true) : m.length = 7 := by
  by_contra hlen
  rw [validateMatrix_valid_iff, validateMatrix_errors_eq, if_pos hlen] at h
  simp at h

theorem countTrue_nil : countTrue [] = 0 := rfl

theorem countTrue_append_singleton (l : List Bool) (b : Bool) :
    countTrue (l ++ [b]) = countTrue l + (if b then 1 else 0) := by
  simp only [countTrue, List.countP_append]
  cases b <;> rfl

theorem countTrue_take_le_countTrue (l : List Bool) (t : ℕ) :
    countTrue (l.take t) ≤ countTrue l :=
  List.Sublist.countP_le _ (List.take_sublist t l)

theorem countTrue_take_mono (l : List Bool) (t : ℕ) :
    countTrue (l.take t) ≤ countTrue (l.take (t + 1)) := by
  have h : l.take t = (l.take (t + 1)).take t := by
    rw [List.take_take]
    congr 1
    omega
  rw [h]
  exact countTrue_take_le_countTrue _ _

theorem getD_eq_get {α : Type} (l : List α) (d : α) (i : ℕ) (h : i < l.length) :
    l.getD i d = l.get ⟨i, h⟩ := by
  rw [List.getD_eq_getD_get?, List.get?_eq_get h]
  rfl

theorem mean_bounds (l : List ℚ) (B : ℚ) (h : ∀ x ∈ l, 0 ≤ x ∧ x ≤ B)
    (hne : l ≠ []) : 0 ≤ mean l ∧ mean l ≤ B := by
  have hlen : 0 < (l.length : ℚ) := by
    have := List.length_pos.mpr hne
    exact_mod_cast this
  have hsum0 : 0 ≤ l.sum := List.sum_nonneg (fun x hx => (h x hx).1)
  constructor
  · exact div_nonneg hsum0 hlen.le
  · rw [mean, div_le_iff₀ hlen]
    calc l.sum ≤ l.length • B := List.sum_le_card_nsmul l B (fun x hx => (h x hx).2)
    _ = B * l.length := by rw [nsmul_eq_mul]; ring

theorem runTrials_length (p : PolicyMatrix) (I T : ℕ) :
    ∀ (n : ℕ) (g : RNGState), (runTrials p I T n g).1.length = n := by
  intro n
  induction n with
  | zero => intro g; rfl
  | succ n ih =>
      intro g
      show ((runSingleTrial p I T g).1 :: (runTrials p I T n (runSingleTrial p I T g).2).1).length = n + 1
      simp [ih]

theorem runTrials_mem (p : PolicyMatrix) (I T : ℕ) :
    ∀ (n : ℕ) (g : RNGState) (r : TrialState), r ∈ (runTrials p I T n g).1 →
      ∃ g0, r = (runSingleTrial p I T g0).1 := by
  intro n
  induction n with
  | zero => intro g r hr; simp [runTrials] at hr
  | succ n ih =>
      intro g r hr
      have hr2 : r ∈ (runSingleTrial p I T g).1 ::
          (runTrials p I T n (runSingleTrial p I T g).2).1 := hr
      rcases List.mem_cons.mp hr2 with h | h
      · exact ⟨g, h⟩
      · exact ih _ r h

theorem get_snoc_last {α : Type} (l : List α) (a : α) (h : l.length < (l ++ [a]).length) :
    (l ++ [a]).get ⟨l.length, h⟩ = a := by
  simp

theorem policy_T_eq (p : PolicyMatrix) (I T : ℕ) (hp : PolicyOK p I T) (hI : 0 < I) :
    p.T = T := by
  obtain ⟨hlen, hwidth, _⟩ := hp
  have h0 : 0 < p.matrix.length := by omega
  unfold PolicyMatrix.T
  cases hm : p.matrix with
  | nil => rw [hm] at h0; simp at h0
  | cons a l =>
      have hmem : a ∈ p.matrix := by rw [hm]; exact List.mem_cons_self a l
      exact hwidth a hmem

theorem policy_cell_canonical (p : PolicyMatrix) (I T : ℕ) (hp : PolicyOK p I T)
    (ci t : ℕ) (hci : ci < I) (ht : t < T) :
    canonicalPrice ((p.matrix.getD ci []).getD t 0) := by
  obtain ⟨hlen, hwidth, hcells⟩ := hp
  have hci2 : ci < p.matrix.length := by omega
  have hmem : p.matrix.get ⟨ci, hci2⟩ ∈ p.matrix := List.get_mem _ _ _
  have hwl : (p.matrix.get ⟨ci, hci2⟩).length = T := hwidth _ hmem
  have ht2 : t < (p.matrix.get ⟨ci, hci2⟩).length := by omega
  rw [getD_eq_get p.matrix [] ci hci2, getD_eq_get _ 0 t ht2]
  exact hcells _ hmem _ (List.get_mem _ _ _)

theorem trialStep_inv (p : PolicyMatrix) (I T t : ℕ) (hp : PolicyOK p I T) (ht : t < T)
    (s : TrialState) (g : RNGState) (h : StepInv I s) :
    StepInv I (trialStep p t (s, g)).1 := by
  obtain ⟨hcap, hcount, hplen, hrlen, hsales, hprices⟩ := h
  by_cases hc : s.capacity = 0
  · have hstep : (trialStep p t (s, g)).1 =
        { s with priceHistory := s.priceHistory ++ [0],
                 salesHistory := s.salesHistory ++ [false],
                 revenueHistory := s.revenueHistory ++ [0] } := by
      simp only [trialStep]
      rw [if_pos hc]
    rw [hstep]
    refine ⟨?_, ?_, ?_, ?_, ?_, ?_⟩
    · show s.capacity + countTrue (s.salesHistory ++ [false]) = I
      rw [countTrue_append_singleton]
      simpa using hcap
    · show s.salesCount = countTrue (s.salesHistory ++ [false])
      rw [countTrue_append_singleton]
      simpa using hcount
    · show (s.priceHistory ++ [0]).length = (s.salesHistory ++ [false]).length
      simp [hplen]
    · show (s.revenueHistory ++ [0]).length = (s.salesHistory ++ [false]).length
      simp [hrlen]
    · intro t2 ht2 hget
      have ht2b : t2 < (s.salesHistory ++ [false]).length := ht2
      by_cases hlt : t2 < s.salesHistory.length
      · have hgetold : (s.salesHistory ++ [false]).get ⟨t2, ht2⟩ = s.salesHistory.get ⟨t2, hlt⟩ :=
          List.get_append t2 hlt
        rw [List.take_append_of_le_length hlt.le]
        rw [hgetold] at hget
        exact hsales t2 hlt hget
      · have hl : (s.salesHistory ++ [false]).length = s.salesHistory.length + 1 := by simp
        have ht2e : t2 = s.salesHistory.length := by omega
        subst ht2e
        rw [get_snoc_last s.salesHistory false ht2] at hget
        exact absurd hget (by simp)
    · intro t2 ht2
      have ht2b : t2 < (s.priceHistory ++ [0]).length := ht2
      by_cases hlt : t2 < s.priceHistory.length
      · have hgetold : (s.priceHistory ++ [0]).get ⟨t2, ht2⟩ = s.priceHistory.get ⟨t2, hlt⟩ :=
          List.get_append t2 hlt
        rw [hgetold]
        have hki : t2 ≤ s.salesHistory.length := by omega
        rw [List.take_append_of_le_length hki]
        exact hprices t2 hlt
      · have hl : (s.priceHistory ++ [0]).length = s.priceHistory.length + 1 := by simp
        have ht2e : t2 = s.priceHistory.length := by omega
        subst ht2e
        right
        refine ⟨get_snoc_last _ _ _, ?_⟩
        rw [hplen, List.take_append_of_le_length (le_refl _), List.take_length]
        omega
  · have hcpos : 1 ≤ s.capacity := Nat.one_le_iff_ne_zero.mpr hc
    have hIpos : 0 < I := by omega
    have hcip : s.capacity - 1 < p.I := by
      show s.capacity - 1 < p.matrix.length
      have h1 := hp.1
      omega
    have htp : t < p.T := by
      rw [policy_T_eq p I T hp hIpos]
      exact ht
    have hcanon : canonicalPrice ((p.matrix.getD (s.capacity - 1) []).getD t 0) :=
      policy_cell_canonical p I T hp (s.capacity - 1) t (by omega) ht
    have hcast : ((s.capacity : ℤ) - 1) = (((s.capacity - 1 : ℕ) : ℕ) : ℤ) := by omega
    set price := (p.matrix.getD (s.capacity - 1) []).getD t 0 with hpricedef
    set sold : Bool := decide ((g.next).1 < saleProbability price) with hsolddef
    have hstep2 : (trialStep p t (s, g)).1 =
        { capacity := if sold then s.capacity - 1 else s.capacity,
          revenue := s.revenue + (if sold then price else 0),
          salesCount := s.salesCount + (if sold then 1 else 0),
          priceHistory := s.priceHistory ++ [price],
          salesHistory := s.salesHistory ++ [sold],
          revenueHistory := s.revenueHistory ++ [if sold then price else 0] } := by
      simp only [trialStep]
      rw [if_neg hc, hcast, getPrice_in_range_getD p (s.capacity - 1) t hcip htp]
    rw [hstep2]
    refine ⟨?_, ?_, ?_, ?_, ?_, ?_⟩
    · show (if sold then s.capacity - 1 else s.capacity) + countTrue (s.salesHistory ++ [sold]) = I
      rw [countTrue_append_singleton]
      by_cases hsv : sold = true
      · rw [if_pos hsv, if_pos hsv]; omega
      · rw [if_neg hsv, if_neg hsv]; omega
    · show s.salesCount + (if sold then 1 else 0) = countTrue (s.salesHistory ++ [sold])
      rw [countTrue_append_singleton]
      omega
    · show (s.priceHistory ++ [price]).length = (s.salesHistory ++ [sold]).length
      simp [hplen]
    · show (s.revenueHistory ++ [if sold then price else 0]).length = (s.salesHistory ++ [sold]).length
      simp [hrlen]
    · intro t2 ht2 hget
      have ht2b : t2 < (s.salesHistory ++ [sold]).length := ht2
      by_cases hlt : t2 < s.salesHistory.length
      · have hgetold : (s.salesHistory ++ [sold]).get ⟨t2, ht2⟩ = s.salesHistory.get ⟨t2, hlt⟩ :=
          List.get_append t2 hlt
        rw [List.take_append_of_le_length hlt.le]
        rw [hgetold] at hget
        exact hsales t2 hlt hget
      · have hl : (s.salesHistory ++ [sold]).length = s.salesHistory.length + 1 := by simp
        have ht2e : t2 = s.salesHistory.length := by omega
        subst ht2e
        rw [List.take_append_of_le_length (le_refl _), List.take_length]
        omega
    · intro t2 ht2
      have ht2b : t2 < (s.priceHistory ++ [price]).length := ht2
      by_cases hlt : t2 < s.priceHistory.length
      · have hgetold : (s.priceHistory ++ [price]).get ⟨t2, ht2⟩ = s.priceHistory.get ⟨t2, hlt⟩ :=
          List.get_append t2 hlt
        rw [hgetold]
        have hki : t2 ≤ s.salesHistory.length := by omega
        rw [List.take_append_of_le_length hki]
        exact hprices t2 hlt
      · have hl : (s.priceHistory ++ [price]).length = s.priceHistory.length + 1 := by simp
        have ht2e : t2 = s.priceHistory.length := by omega
        subst ht2e
        left
        rw [get_snoc_last s.priceHistory price ht2]
        exact hcanon

theorem runPeriods_inv (p : PolicyMatrix) (I T : ℕ) (hp : PolicyOK p I T) :
    ∀ (fuel t : ℕ), t + fuel ≤ T → ∀ (sg : TrialState × RNGState),
      StepInv I sg.1 → StepInv I (runPeriods p fuel t sg).1 := by
  intro fuel
  induction fuel with
  | zero => intro t _ sg h; exact h
  | succ n ih =>
      intro t hle sg h
      have hstep : StepInv I (trialStep p t (sg.1, sg.2)).1 :=
        trialStep_inv p I T t hp (by omega) sg.1 sg.2 h
      show StepInv I (runPeriods p n (t + 1) (trialStep p t sg)).1
      exact ih (t + 1) (by omega) (trialStep p t sg) hstep

theorem stepInv_init (I : ℕ) : StepInv I (TrialState.init I) := by
  refine ⟨?_, rfl, rfl, rfl, ?_, ?_⟩
  · show I + countTrue [] = I
    simp [countTrue]
  · intro t ht
    simp [TrialState.init] at ht
  · intro t ht
    simp [TrialState.init] at ht

theorem traceOK_of_inv (I T : ℕ) (r : TrialState) (hinv : StepInv I r)
    (h1 : r.priceHistory.length = T) (h2 : r.salesHistory.length = T)
    (h3 : r.revenueHistory.length = T) : TraceOK I T r := by
  obtain ⟨hcap, hcount, hplen, hrlen, hsales, hprices⟩ := hinv
  refine ⟨h1, h2, h3, ?_, ?_, hsales, hprices⟩
  · intro t
    have := countTrue_take_le_countTrue r.salesHistory t
    omega
  · intro t
    have := countTrue_take_mono r.salesHistory t
    omega

theorem singleTrial_traceOK (p : PolicyMatrix) (I T : ℕ) (hp : PolicyOK p I T)
    (g : RNGState) : TraceOK I T (runSingleTrial p I T g).1 := by
  have hinv : StepInv I (runSingleTrial p I T g).1 :=
    runPeriods_inv p I T hp T 0 (by omega) (TrialState.init I, g) (stepInv_init I)
  have hlen := runPeriods_lengths p T 0 (TrialState.init I, g)
  exact traceOK_of_inv I T _ hinv
    (by have := hlen.1; simpa [TrialState.init] using this)
    (by have := hlen.2.1; simpa [TrialState.init] using this)
    (by have := hlen.2.2; simpa [TrialState.init] using this)

theorem trial_salesCount_le (p : PolicyMatrix) (I T : ℕ) (hp : PolicyOK p I T)
    (g : RNGState) : (runSingleTrial p I T g).1.salesCount ≤ I := by
  have hinv : StepInv I (runSingleTrial p I T g).1 :=
    runPeriods_inv p I T hp T 0 (by omega) (TrialState.init I, g) (stepInv_init I)
  obtain ⟨hcap, hcount, _⟩ := hinv
  omega

/-! ### Claim theorems -/

/-- C1: Determinism of simulation.  For every engine configuration, every
policy matrix and every pair of internal RNG positions c1, c2 (in
particular, for a freshly constructed engine and for an engine whose
generator was advanced by an earlier call), running the simulation
produces identical output — identical aggregates (avgRevenue,
varRevenue and hence stdRevenue = sqrt varRevenue, fillRate, avgPrice,
lastMinuteShare, priceMix), identical sample trial, identical histograms,
and even an identical post-run engine — because runSimulation first resets
the shared generator to its seed. -/
theorem runSimulation_deterministic (cfg : EngineConfig) (p : PolicyMatrix) (s c1 c2 : ℤ) :
    runSimulation ⟨cfg, ⟨s, c1⟩⟩ p = runSimulation ⟨cfg, ⟨s, c2⟩⟩ p := rfl

/-- C9 (code bug): a trials count of 0 is not rejected.  The constructor's
`config.trials || DEFAULT_TRIALS` treats the falsy 0 as absent and silently
substitutes the default 10000, so engine creation succeeds; yet the
engine's own `_validateConfig` — shown in the second conjunct — would
reject a zero trials count as "Number of trials must be positive" had it
ever seen it.  The defaulting therefore makes the code's own non-positive
check unreachable for 0, contradicting the documented fail-fast intent. -/
theorem trials_zero_silently_defaulted :
    SimulationEngine.create { trials := some 0 } =
      .ok { config := { I := 7, T := 15, trials := 10000, seed := 42, lastMinuteK := 3 },
            rng := ⟨42, 42⟩ } ∧
    validateConfig { I := 7, T := 15, trials := 0, seed := 42, lastMinuteK := 3 } =
      .error "Number of trials must be positive" :=
  ⟨rfl, rfl⟩

/-- C3 counterexample: trial 1's random stream is not a function of
(seed, trial index) alone.  With the same run seed 42, the generator state
with which trial 1 starts differs between the all-LOW and the all-HIGH
policy, because trial 0 consumes a policy-dependent number of draws from
the single shared generator. -/
theorem trial_stream_depends_on_policy :
    rngStateAtTrial allLowPolicy 7 15 42 1 ≠ rngStateAtTrial allHighPolicy 7 15 42 1 := by
  decide

/-- C3 (amended): the aggregator derives no per-trial seed at all.  It
runs all trials off one shared generator: the stream entering trial 0 is
the generator reset to the run seed, and the stream entering trial i+1 is
exactly the stream left behind by trial i. -/
theorem shared_generator_across_trials (p : PolicyMatrix) (I T : ℕ) (s : ℤ) (i : ℕ) :
    rngStateAtTrial p I T s 0 = RNG.init s ∧
    rngStateAtTrial p I T s (i + 1) =
      (runSingleTrial p I T (rngStateAtTrial p I T s i)).2 :=
  ⟨rfl, runTrials_snd_succ p I T i ((RNG.init s).reset)⟩

/-- C4 counterexample: for the integer seed -1000 the very first call to
next() returns a negative value, outside [0,1), because the JavaScript
remainder keeps the dividend's sign. -/
theorem negative_seed_draw_negative : nthDraw (-1000) 0 < 0 := by decide

/-- C4 (amended): the stream generator contract holds for every
nonnegative integer seed small enough that the program's double
arithmetic is exact, i.e. 1664525 * s + 1013904223 < 2^53 (about
5.4e9; every 32-bit seed qualifies, and every iterate after the first
lies in [0, 2^32) where the bound always holds, so the whole stream is
then computed exactly): every draw lies in [0,1); reset() after any
number of draws restores the initial state, so the sequence restarts;
the state evolves by current = (1664525 * current + 1013904223) tmod 2^32
computed exactly; and each draw is exactly the new current divided by
2^32 (the only division).  Two generators with the same seed trivially
produce identical sequences since the draw stream is the function
nthDraw of the seed alone.  Outside the bound the rounded first step
diverges from the exact recurrence
(lcg_first_step_rounds_at_large_seed), and for negative seeds draws
can be negative (the C4 counterexample). -/
theorem rng_contract_nonneg_seed (s : ℤ) (n : ℕ) (hs : 0 ≤ s)
    (hs53 : lcgA * s + lcgC < 2 ^ 53) :
    (0 ≤ nthDraw s n ∧ nthDraw s n < 1) ∧
    RNGState.reset ((RNG.init s).after n) = RNG.init s ∧
    ((RNG.init s).after (n + 1)).current =
      (lcgA * ((RNG.init s).after n).current + lcgC).tmod lcgM ∧
    nthDraw s n = ((((RNG.init s).after (n + 1)).current : ℤ) : ℚ) / ((lcgM : ℤ) : ℚ) := by
  have hcur := init_current_nonneg s hs n
  have hb := lcgNext_bounds _ hcur
  refine ⟨?_, ?_, rfl, ?_⟩
  · have h32 : lcgNext ((RNG.init s).after n).current < 2 ^ 32 := by
      have := hb.2; simpa [lcgM] using this
    have := mkRat_unit_bounds (lcgNext ((RNG.init s).after n).current) hb.1 h32
    simpa [nthDraw, RNGState.next] using this
  · have hseed := RNGState.after_seed (RNG.init s) n
    show (⟨((RNG.init s).after n).seed, ((RNG.init s).after n).seed⟩ : RNGState) = RNG.init s
    rw [hseed]
    rfl
  · show (((RNG.init s).after n).next).1 = _
    rw [RNGState.next_fst]
    rfl

/-- Witness for C4 at seed 42, draw 0. -/
theorem rng_contract_nonneg_seed_witness :
    (0 ≤ (42 : ℤ) ∧ lcgA * 42 + lcgC < 2 ^ 53) ∧
    ((0 ≤ nthDraw 42 0 ∧ nthDraw 42 0 < 1) ∧
     RNGState.reset ((RNG.init 42).after 0) = RNG.init 42 ∧
     ((RNG.init 42).after 1).current =
       (lcgA * ((RNG.init 42).after 0).current + lcgC).tmod lcgM ∧
     nthDraw 42 0 = ((((RNG.init 42).after 1).current : ℤ) : ℚ) / ((lcgM : ℤ) : ℚ)) :=
  ⟨⟨by decide, by decide⟩, rng_contract_nonneg_seed 42 0 (by decide) (by decide)⟩

/-- C5 (spec-modelled; dp_benchmark.py is absent from the sources): the
regret attached to a simulation result is the backward-induction optimal
expected revenue of the fixed 7×15 model minus the simulated average
revenue, surfaced as-is.  The conjuncts state the three defining
recurrence equations of the value function (whose type shows it consults
neither the policy matrix nor any random draw), the regret formula, the
1×1 sanity value max(0.9·30000, 0.8·40000, 0.4·50000) = 32000, and that a
negative regret is returned unclamped. -/
theorem optimal_benchmark_regret :
    (∀ r, optimalValue 0 r = 0) ∧
    (∀ c, optimalValue (c + 1) 0 = 0) ∧
    (∀ c r, optimalValue (c + 1) (r + 1) =
      max (9/10 * (30000 + optimalValue c r) + (1 - 9/10) * optimalValue (c + 1) r)
        (max (8/10 * (40000 + optimalValue c r) + (1 - 8/10) * optimalValue (c + 1) r)
          (4/10 * (50000 + optimalValue c r) + (1 - 4/10) * optimalValue (c + 1) r))) ∧
    (∀ res : SimulationResults, resultRegret res = optimalValue 7 15 - res.aggregates.avgRevenue) ∧
    optimalValue 1 1 = 32000 ∧
    regretOf (optimalValue 7 15 + 1) = -1 := by
  refine ⟨fun r => by simp [optimalValue], fun c => by simp [optimalValue],
    fun c r => rfl, fun res => rfl, ?_, ?_⟩
  · norm_num [optimalValue]
  · simp only [regretOf]
    ring

/-- C10 counterexample: getPrice is not defined (returns JavaScript
undefined) at the in-range pair (1,1) of a ragged matrix whose declared
dimensions are I = 2, T = 2 but whose row 1 has a single cell. -/
theorem getPrice_ragged_undefined :
    raggedPolicy.getPrice 1 1 = none ∧
    0 ≤ (1 : ℤ) ∧ (1 : ℤ) < (raggedPolicy.I : ℤ) ∧ (1 : ℤ) < (raggedPolicy.T : ℤ) := by
  decide

/-- C10 (amended): getPrice returns 0 for every integer index pair outside
[0, I) × [0, T); for an in-range pair it returns the stored cell, which is
a defined number whenever every row has at least T cells (in particular
for rectangular matrices), but is undefined for a ragged row shorter
than T. -/
theorem getPrice_total_outside_range (p : PolicyMatrix) (ci t : ℤ) :
    ((ci < 0 ∨ (p.I : ℤ) ≤ ci ∨ t < 0 ∨ (p.T : ℤ) ≤ t) → p.getPrice ci t = some 0) ∧
    ((0 ≤ ci ∧ ci < (p.I : ℤ) ∧ 0 ≤ t ∧ t < (p.T : ℤ)) →
      (∀ row ∈ p.matrix, p.T ≤ row.length) → (p.getPrice ci t).isSome = true) := by
  constructor
  · intro h
    unfold PolicyMatrix.getPrice
    rw [if_pos h]
  · rintro ⟨h1, h2, h3, h4⟩ hrows
    unfold PolicyMatrix.getPrice
    rw [if_neg (by omega)]
    have hci : ci.toNat < p.matrix.length := by
      unfold PolicyMatrix.I at h2; omega
    obtain ⟨row, hrow⟩ : ∃ row, p.matrix.get? ci.toNat = some row := by
      rw [List.get?_eq_get hci]; exact ⟨_, rfl⟩
    have hmem : row ∈ p.matrix := List.get?_mem hrow
    have hlen : p.T ≤ row.length := hrows row hmem
    have ht2 : t.toNat < row.length := by omega
    rw [hrow]
    simp [List.getElem?_eq_getElem ht2]

/-- Witness for C10: an out-of-range lookup on the all-LOW policy returns
the number 0, and an in-range lookup on it is defined. -/
theorem getPrice_total_outside_range_witness :
    allLowPolicy.getPrice (-1) 0 = some 0 ∧
    (allLowPolicy.getPrice 2 3).isSome = true :=
  ⟨(getPrice_total_outside_range allLowPolicy (-1) 0).1 (by decide),
   (getPrice_total_outside_range allLowPolicy 2 3).2 (by decide) (by decide)⟩

/-- C2: single-trial step semantics.  At a period t: if remaining capacity
is 0 the step appends the record (price 0, sold false, revenue 0), leaves
capacity unchanged and consumes no draw (the generator is returned
untouched); otherwise — for a capacity index and period inside the
policy's declared shape — the offered price is PolicyMatrix cell
[capacity-1][t], exactly one draw u = next() is consumed, the sale occurs
iff u < the fixed sale probability of that price, and on a sale capacity
drops by 1 and the period's revenue is the price, else 0.  The final
conjunct: a trial runs exactly T periods (all three history rows of
runSingleTrial have length T). -/
theorem trial_step_semantics (p : PolicyMatrix) (s : TrialState) (g : RNGState)
    (t I T : ℕ) :
    (s.capacity = 0 →
      trialStep p t (s, g) =
        ({ s with priceHistory := s.priceHistory ++ [0],
                  salesHistory := s.salesHistory ++ [false],
                  revenueHistory := s.revenueHistory ++ [0] }, g)) ∧
    (s.capacity ≠ 0 → s.capacity - 1 < p.I → t < p.T →
      trialStep p t (s, g) =
        (let price := (p.matrix.getD (s.capacity - 1) []).getD t 0
         let u := (g.next).1
         let sold : Bool := decide (u < saleProbability price)
         ({ capacity := if sold then s.capacity - 1 else s.capacity,
            revenue := s.revenue + (if sold then price else 0),
            salesCount := s.salesCount + (if sold then 1 else 0),
            priceHistory := s.priceHistory ++ [price],
            salesHistory := s.salesHistory ++ [sold],
            revenueHistory := s.revenueHistory ++ [if sold then price else 0] },
          (g.next).2))) ∧
    ((runSingleTrial p I T g).1.priceHistory.length = T ∧
     (runSingleTrial p I T g).1.salesHistory.length = T ∧
     (runSingleTrial p I T g).1.revenueHistory.length = T) := by
  refine ⟨?_, ?_, ?_⟩
  · intro h
    simp only [trialStep]
    rw [if_pos h]
  · intro h hci ht
    have hcast : ((s.capacity : ℤ) - 1) = (((s.capacity - 1 : ℕ) : ℕ) : ℤ) := by omega
    simp only [trialStep]
    rw [if_neg h, hcast, getPrice_in_range_getD p (s.capacity - 1) t hci ht]
  · have h := runPeriods_lengths p T 0 (TrialState.init I, g)
    simpa [runSingleTrial, TrialState.init] using h

/-- Witness for C2 at the all-LOW policy, the fresh trial state of
capacity 7, the seed-42 generator and period 0. -/
theorem trial_step_semantics_witness :
    (TrialState.init 7).capacity ≠ 0 ∧
    trialStep allLowPolicy 0 (TrialState.init 7, RNG.init 42) =
      (let price := (allLowPolicy.matrix.getD ((TrialState.init 7).capacity - 1) []).getD 0 0
       let u := ((RNG.init 42).next).1
       let sold : Bool := decide (u < saleProbability price)
       ({ capacity := if sold then (TrialState.init 7).capacity - 1
                      else (TrialState.init 7).capacity,
          revenue := (TrialState.init 7).revenue + (if sold then price else 0),
          salesCount := (TrialState.init 7).salesCount + (if sold then 1 else 0),
          priceHistory := (TrialState.init 7).priceHistory ++ [price],
          salesHistory := (TrialState.init 7).salesHistory ++ [sold],
          revenueHistory := (TrialState.init 7).revenueHistory ++ [if sold then price else 0] },
        ((RNG.init 42).next).2)) :=
  ⟨by decide,
   (trial_step_semantics allLowPolicy (TrialState.init 7) (RNG.init 42) 0 7 15).2.1
     (by decide) (by decide) (by decide)⟩

/-- C6 counterexample: not every returned error carries 1-based
row/column coordinates.  On the grid [["LOW","XYZ"]] the collected list
contains the row-count error, whose coordinates are (-1, -1). -/
theorem row_count_error_not_one_based :
    ¬ (∀ e ∈ (validateMatrix badGrid).errors, 1 ≤ e.row ∧ 1 ≤ e.col) := by
  decide

/-- C6 (amended): the validator collects every violation without stopping
at the first: the result is valid iff the error list is empty; a wrong row
count contributes an error with sentinel coordinates (-1,-1); a row of the
wrong width contributes an error with its 1-based row and column -1; every
out-of-vocabulary cell contributes an error with 1-based row and column
and the offending value; and a grid with a wrong row count and at least
one bad cell yields at least two distinct errors. -/
theorem validation_completeness (m : List (List String)) :
    ((validateMatrix m).valid = true ↔ (validateMatrix m).errors = []) ∧
    (m.length ≠ 7 → ∃ e ∈ (validateMatrix m).errors, e.row = -1 ∧ e.col = -1) ∧
    (∀ i, ∀ hi : i < m.length, (m.get ⟨i, hi⟩).length ≠ 15 →
      ∃ e ∈ (validateMatrix m).errors, e.row = (i : ℤ) + 1 ∧ e.col = -1) ∧
    (∀ i, ∀ hi : i < m.length, ∀ j, ∀ hj : j < (m.get ⟨i, hi⟩).length,
      isValidPriceLevel ((m.get ⟨i, hi⟩).get ⟨j, hj⟩) = false →
      ∃ e ∈ (validateMatrix m).errors,
        e.row = (i : ℤ) + 1 ∧ e.col = (j : ℤ) + 1 ∧
          e.value = (m.get ⟨i, hi⟩).get ⟨j, hj⟩) ∧
    (m.length ≠ 7 →
      (∃ i, ∃ hi : i < m.length, ∃ j, ∃ hj : j < (m.get ⟨i, hi⟩).length,
        isValidPriceLevel ((m.get ⟨i, hi⟩).get ⟨j, hj⟩) = false) →
      ∃ e1 ∈ (validateMatrix m).errors, ∃ e2 ∈ (validateMatrix m).errors, e1 ≠ e2) := by
  have herr := validateMatrix_errors_eq m
  have hrowcount : m.length ≠ 7 →
      ∃ e ∈ (validateMatrix m).errors, e.row = -1 ∧ e.col = -1 := by
    intro h
    rw [herr, if_pos h]
    exact ⟨_, List.mem_append_left _ (List.mem_singleton_self _), rfl, rfl⟩
  have hcell : ∀ i, ∀ hi : i < m.length, ∀ j, ∀ hj : j < (m.get ⟨i, hi⟩).length,
      isValidPriceLevel ((m.get ⟨i, hi⟩).get ⟨j, hj⟩) = false →
      ∃ e ∈ (validateMatrix m).errors,
        e.row = (i : ℤ) + 1 ∧ e.col = (j : ℤ) + 1 ∧
          e.value = (m.get ⟨i, hi⟩).get ⟨j, hj⟩ := by
    intro i hi j hj hbad
    obtain ⟨e, hmem, h1, h2, h3⟩ := rowErrors_cell_exists m 0 i hi j hj hbad
    refine ⟨e, ?_, by rw [h1]; push_cast; ring, h2, h3⟩
    rw [herr]
    exact List.mem_append_right _ hmem
  refine ⟨validateMatrix_valid_iff m, hrowcount, ?_, hcell, ?_⟩
  · intro i hi hw
    obtain ⟨e, hmem, h1, h2⟩ := rowErrors_width_exists m 0 i hi hw
    refine ⟨e, ?_, by rw [h1]; push_cast; ring, h2⟩
    rw [herr]
    exact List.mem_append_right _ hmem
  · intro h7 hbad
    obtain ⟨i, hi, j, hj, hbadc⟩ := hbad
    obtain ⟨e1, hm1, h1r, h1c⟩ := hrowcount h7
    obtain ⟨e2, hm2, h2r, h2c, h2v⟩ := hcell i hi j hj hbadc
    refine ⟨e1, hm1, e2, hm2, ?_⟩
    intro hEq
    rw [hEq] at h1r
    rw [h1r] at h2r
    omega

/-- Witness for C6 at the grid [["LOW","XYZ"]], which has a wrong row
count (1 instead of 7) and the bad cell "XYZ": at least two distinct
errors are collected, and the grid is reported invalid. -/
theorem validation_completeness_witness :
    badGrid.length ≠ 7 ∧
    (∃ e1 ∈ (validateMatrix badGrid).errors,
      ∃ e2 ∈ (validateMatrix badGrid).errors, e1 ≠ e2) :=
  ⟨by decide,
   (validation_completeness badGrid).2.2.2.2 (by decide)
     ⟨0, by decide, 1, by decide, by decide⟩⟩

/-- C8 counterexample: a raw grid made of a non-vocabulary header row on
top of a correct 7×15 body does not validate with zero errors — it is
rejected, because no header stripping exists anywhere in the
parse/validate path. -/
theorem header_grid_rejected : (validateMatrix headerGrid).valid = false := by decide

/-- C8 (amended): neither parseCSV nor validateMatrix detects or strips
header rows.  parseCSV only trims and uppercases cells and never removes a
row (last conjunct); prepending a header row containing a non-vocabulary
cell to any otherwise valid body makes validation fail, with a row-count
error at (-1,-1) and a vocabulary error in row 1 pointing at a header
cell. -/
theorem no_header_stripping (hdr : List String) (body : List (List String))
    (hbody : (validateMatrix body).valid = true)
    (hbad : ∃ c ∈ hdr, isValidPriceLevel c = false) :
    (validateMatrix (hdr :: body)).valid = false ∧
    (∃ e ∈ (validateMatrix (hdr :: body)).errors, e.row = -1 ∧ e.col = -1) ∧
    (∃ e ∈ (validateMatrix (hdr :: body)).errors, e.row = 1 ∧ e.value ∈ hdr) ∧
    (∀ s : String, (parseCSV s).length = (s.trim.splitOn "\n").length) := by
  have h7 : body.length = 7 := validateMatrix_valid_rows body hbody
  have hlen : (hdr :: body).length ≠ 7 := by simp [h7]
  have hrowcount : ∃ e ∈ (validateMatrix (hdr :: body)).errors, e.row = -1 ∧ e.col = -1 := by
    rw [validateMatrix_errors_eq, if_pos hlen]
    exact ⟨_, List.mem_append_left _ (List.mem_singleton_self _), rfl, rfl⟩
  obtain ⟨c, hc, hcbad⟩ := hbad
  obtain ⟨⟨j, hj⟩, hget⟩ := List.mem_iff_get.mp hc
  have hj0 : j < ((hdr :: body).get ⟨0, by simp⟩).length := by simpa using hj
  have hbad0 : isValidPriceLevel (((hdr :: body).get ⟨0, by simp⟩).get ⟨j, hj0⟩) = false := by
    show isValidPriceLevel (hdr.get ⟨j, hj⟩) = false
    rw [hget]
    exact hcbad
  obtain ⟨e, hmem, h1, h2, h3⟩ := rowErrors_cell_exists (hdr :: body) 0 0 (by simp) j hj0 hbad0
  have hmem2 : e ∈ (validateMatrix (hdr :: body)).errors := by
    rw [validateMatrix_errors_eq]
    exact List.mem_append_right _ hmem
  refine ⟨?_, hrowcount, ⟨e, hmem2, by rw [h1]; ring, ?_⟩, fun s => by simp [parseCSV]⟩
  · rcases hrowcount with ⟨e0, hm0, _, _⟩
    rcases Bool.eq_false_or_eq_true ((validateMatrix (hdr :: body)).valid) with h | h
    · rw [validateMatrix_valid_iff] at h
      rw [h] at hm0
      simp at hm0
    · exact h
  · rw [h3]
    show hdr.get ⟨j, hj⟩ ∈ hdr
    exact List.get_mem _ _ _

/-- Witness for C8: the concrete header grid (a 15-cell "PERIOD" header
row over a valid all-LOW 7×15 body) fails validation with the row-count
error and a header-cell vocabulary error. -/
theorem no_header_stripping_witness :
    (validateMatrix goodGrid).valid = true ∧
    ((validateMatrix headerGrid).valid = false ∧
     (∃ e ∈ (validateMatrix headerGrid).errors, e.row = -1 ∧ e.col = -1) ∧
     (∃ e ∈ (validateMatrix headerGrid).errors, e.row = 1 ∧ e.value ∈ headerRow) ∧
     (∀ s : String, (parseCSV s).length = (s.trim.splitOn "\n").length)) :=
  ⟨by decide,
   no_header_stripping headerRow goodGrid (by decide) ⟨"PERIOD", by decide, by decide⟩⟩

/-- C7: trace invariants and bounds.  For every policy matrix of the
configured shape whose cells are all canonical prices, and every
configuration with positive capacity and at least one trial, every trial
trace produced by the run has exactly T records per history; the remaining
capacity I - sales-so-far starts at I, never goes negative (sales in any
prefix never exceed I) and is monotonically non-increasing; a sale occurs
only in a period entered with positive remaining capacity; every recorded
price is one of the three canonical values, or exactly 0 in a period
entered with capacity exhausted; and the computed fill rate lies in
[0, 1]. -/
theorem trace_invariants_and_bounds (p : PolicyMatrix) (cfg : EngineConfig)
    (hp : PolicyOK p cfg.I cfg.T) (hI : 0 < cfg.I) (htr : 1 ≤ cfg.trials) :
    (∀ r ∈ simTrialList p cfg, TraceOK cfg.I cfg.T r) ∧
    0 ≤ (calculateAggregates cfg (simTrialList p cfg)).fillRate ∧
    (calculateAggregates cfg (simTrialList p cfg)).fillRate ≤ 1 := by
  have hmem : ∀ r ∈ simTrialList p cfg, ∃ g0, r = (runSingleTrial p cfg.I cfg.T g0).1 :=
    fun r hr => runTrials_mem p cfg.I cfg.T _ _ r hr
  have htrace : ∀ r ∈ simTrialList p cfg, TraceOK cfg.I cfg.T r := by
    intro r hr
    obtain ⟨g0, hg0⟩ := hmem r hr
    rw [hg0]
    exact singleTrial_traceOK p cfg.I cfg.T hp g0
  have hcnt : ∀ x ∈ (simTrialList p cfg).map (fun r => ((r.salesCount : ℚ))),
      0 ≤ x ∧ x ≤ (cfg.I : ℚ) := by
    intro x hx
    obtain ⟨r, hr, hrx⟩ := List.mem_map.mp hx
    obtain ⟨g0, hg0⟩ := hmem r hr
    rw [← hrx, hg0]
    have hle := trial_salesCount_le p cfg.I cfg.T hp g0
    constructor
    · positivity
    · exact_mod_cast hle
  have hne : (simTrialList p cfg).map (fun r => ((r.salesCount : ℚ))) ≠ [] := by
    have hlen : (simTrialList p cfg).length = cfg.trials.toNat :=
      runTrials_length p cfg.I cfg.T _ _
    intro hcontra
    have hzero := congrArg List.length hcontra
    simp only [List.length_map, List.length_nil, hlen] at hzero
    omega
  have hmean := mean_bounds _ (cfg.I : ℚ) hcnt hne
  have hIQ : (0 : ℚ) < (cfg.I : ℚ) := by exact_mod_cast hI
  refine ⟨htrace, ?_, ?_⟩
  · show 0 ≤ mean ((simTrialList p cfg).map (fun r => ((r.salesCount : ℚ)))) / (cfg.I : ℚ)
    exact div_nonneg hmean.1 hIQ.le
  · show mean ((simTrialList p cfg).map (fun r => ((r.salesCount : ℚ)))) / (cfg.I : ℚ) ≤ 1
    rw [div_le_one hIQ]
    exact hmean.2

/-- Witness for C7 at the all-LOW 7×15 policy and the default engine
configuration (10000 trials, seed 42, k = 3). -/
theorem trace_invariants_and_bounds_witness :
    (∀ r ∈ simTrialList allLowPolicy defaultEngineConfig,
        TraceOK defaultEngineConfig.I defaultEngineConfig.T r) ∧
    0 ≤ (calculateAggregates defaultEngineConfig
          (simTrialList allLowPolicy defaultEngineConfig)).fillRate ∧
    (calculateAggregates defaultEngineConfig
          (simTrialList allLowPolicy defaultEngineConfig)).fillRate ≤ 1 :=
  trace_invariants_and_bounds allLowPolicy defaultEngineConfig (by decide) (by decide)
    (by decide)

end Canyon
